import Mathlib

/-!
A verification development for the `steps-carthage` CI step.

The Go sources under `src/main.go` are embedded shallowly: each Go function
becomes a Lean function over `String`/`List`, subprocess and file-system
collaborators become explicit function parameters, and `fail`/error returns
become `Except`. The behaviour of the two vendored helper libraries the step
calls into (`github.com/kballard/go-shellquote` for option splitting and
`github.com/hashicorp/go-version` for semantic-version parsing) is embedded
from those libraries' sources, since the step's observable behaviour depends
on them. The cache subsystem (`cachedcarthage` package) is not present in the
sources at hand and is modelled from the specification, as marked on each of
its definitions.
-/

namespace StepsCarthage

/-- The flag literal `--project-directory` (constant `projectDirArg` in
`src/main.go`). -/
def projectDirArg : String := "--project-directory"

/-- The scanning loop of `parseProjectDir` (`src/main.go`): the Boolean is the
Go local `isNextOptionProjectDir`; the loop returns the first option that
follows an occurrence of the flag and is not itself the flag (the `continue`
on a flag token re-arms the Boolean), or `none` when the loop falls through. -/
def parseProjectDirLoop : Bool → List String → Option String
  | _, [] => none
  | b, o :: rest =>
    if o = projectDirArg then parseProjectDirLoop true rest
    else if b then some o
    else parseProjectDirLoop b rest

/-- `parseProjectDir` from `src/main.go`: starts from the configured source
directory and lets a `--project-directory` value among the custom Carthage
options override it. -/
def parseProjectDir (originalDir : String) (customCarthageOptions : List String) : String :=
  (parseProjectDirLoop false customCarthageOptions).getD originalDir

theorem parseProjectDirLoop_true_eq_find (post : List String) :
    parseProjectDirLoop true post = post.find? (fun t => !(t == projectDirArg)) := by
  induction post with
  | nil => rfl
  | cons o rest ih =>
    by_cases h : o = projectDirArg
    · simp [parseProjectDirLoop, List.find?, h, ih]
    · have hb : (o == projectDirArg) = false := by simp [h]
      simp [parseProjectDirLoop, List.find?, h, hb]

theorem parseProjectDirLoop_false_eq (opts : List String) :
    parseProjectDirLoop false opts =
      match opts.dropWhile (fun t => !(t == projectDirArg)) with
      | [] => none
      | _ :: post => post.find? (fun t => !(t == projectDirArg)) := by
  induction opts with
  | nil => rfl
  | cons o rest ih =>
    by_cases h : o = projectDirArg
    · simp [parseProjectDirLoop, List.dropWhile, h, parseProjectDirLoop_true_eq_find]
    · have hb : (o == projectDirArg) = false := by simp [h]
      simp [parseProjectDirLoop, List.dropWhile, h, hb, ih]

/-- C1 (amended): `parseProjectDir` scans the tokens in order; at the first
occurrence of the literal `--project-directory` it returns the first
subsequent token that is not itself the flag literal (tokens equal to the
flag literal are treated as fresh flag occurrences and skipped), overriding
the default; if no such token follows, or the flag never occurs, the default
is returned. -/
theorem parseProjectDir_first_nonflag_value (d : String) (opts : List String) :
    parseProjectDir d opts =
      match opts.dropWhile (fun t => !(t == projectDirArg)) with
      | [] => d
      | _ :: post => (post.find? (fun t => !(t == projectDirArg))).getD d := by
  unfold parseProjectDir
  rw [parseProjectDirLoop_false_eq]
  rcases h : opts.dropWhile (fun t => !(t == projectDirArg)) with _ | ⟨a, post⟩ <;> simp

/-- C1 (counterexample): on the token list
`["--project-directory", "--project-directory", "X"]` the immediately
following token after the first flag occurrence is the flag literal itself,
yet `parseProjectDir` returns `"X"`, not that immediately following token —
so the first flag occurrence is not the one whose successor is honoured. -/
theorem parseProjectDir_not_immediate_next :
    parseProjectDir "/src" ["--project-directory", "--project-directory", "X"] = "X" ∧
      ("X" : String) ≠ "--project-directory" := by
  constructor
  · rfl
  · decide

/-- C1 (witness): the amended characterisation evaluated on the
counterexample's token list. -/
theorem parseProjectDir_first_nonflag_value_witness :
    parseProjectDir "/src" ["--project-directory", "--project-directory", "X"] =
      match (["--project-directory", "--project-directory", "X"].dropWhile
          (fun t => !(t == projectDirArg))) with
      | [] => "/src"
      | _ :: post => (post.find? (fun t => !(t == projectDirArg))).getD "/src" :=
  parseProjectDir_first_nonflag_value "/src" ["--project-directory", "--project-directory", "X"]

/-- C6: when the flag literal is the last token (no earlier occurrence), the
default directory is returned unchanged and no error is signalled (the
function is total). -/
theorem parseProjectDir_trailing_flag_default (d : String) (tokens : List String)
    (h : projectDirArg ∉ tokens) :
    parseProjectDir d (tokens ++ [projectDirArg]) = d := by
  unfold parseProjectDir
  suffices hl : parseProjectDirLoop false (tokens ++ [projectDirArg]) = none by
    simp [hl]
  induction tokens with
  | nil => rfl
  | cons o rest ih =>
    have ho : o ≠ projectDirArg := fun he => h (he ▸ List.mem_cons_self o rest)
    have hrest : projectDirArg ∉ rest := fun hm => h (List.mem_cons_of_mem o hm)
    simpa [parseProjectDirLoop, ho] using ih hrest

/-- C6 (witness): `["--platform", "iOS", "--project-directory"]` leaves the
default `/src` in place. -/
theorem parseProjectDir_trailing_flag_default_witness :
    parseProjectDir "/src" (["--platform", "iOS"] ++ [projectDirArg]) = "/src" :=
  parseProjectDir_trailing_flag_default "/src" ["--platform", "iOS"] (by decide)

/-- C10: `parseProjectDir` never returns the flag literal itself (unless it
was already the default): a flag token directly after another flag occurrence
re-arms the scan instead of being taken as the value, so
`["--project-directory", "--project-directory", "X"]` yields `"X"`. -/
theorem parseProjectDir_never_flag :
    (∀ (d : String) (opts : List String),
        d ≠ projectDirArg → parseProjectDir d opts ≠ projectDirArg) ∧
      parseProjectDir "/src" ["--project-directory", "--project-directory", "X"] = "X" := by
  constructor
  · intro d opts hd
    unfold parseProjectDir
    rcases h : parseProjectDirLoop false opts with _ | t
    · simpa using hd
    · rcases hfind : opts.dropWhile (fun t => !(t == projectDirArg)) with _ | ⟨a, post⟩
      · rw [parseProjectDirLoop_false_eq, hfind] at h
        exact absurd h (by simp)
      · rw [parseProjectDirLoop_false_eq, hfind] at h
        have := List.find?_some h
        simpa using fun he => by simp [he] at this
  · rfl

/-- C10 (witness): the general part applied at the concrete default `/src`
and token list `["--project-directory"]`. -/
theorem parseProjectDir_never_flag_witness :
    parseProjectDir "/src" ["--project-directory"] ≠ projectDirArg :=
  parseProjectDir_never_flag.1 "/src" ["--project-directory"] (by decide)

/-! ## The option splitter

`parseCarthageOptions` (`src/main.go`) delegates to `shellquote.Split` from
`github.com/kballard/go-shellquote`; the splitter below is embedded from that
library's `unquote.go` (function `Split` and its helper `splitWord`), with the
word-scanner's `goto` states made an explicit state argument. -/

/-- Errors of the embedded `go-shellquote` splitter: `UnterminatedSingleQuoteError`,
`UnterminatedDoubleQuoteError` and `UnterminatedEscapeError`. -/
inductive SQError
  | unterminatedSingle
  | unterminatedDouble
  | unterminatedEscape
  deriving DecidableEq, Repr

/-- The single-quote character (`singleChar` in go-shellquote), written via its
code point. -/
def singleQuoteChar : Char := Char.ofNat 39

/-- The backtick character, one of go-shellquote's `doubleEscapeChars`. -/
def backquoteChar : Char := Char.ofNat 96

/-- `splitChars = " \n\t"` from go-shellquote. -/
def isSplitChar (c : Char) : Bool := c = ' ' || c = '\n' || c = '\t'

/-- `doubleEscapeChars` from go-shellquote: the characters a backslash escapes
inside double quotes (dollar, backtick, double quote, newline, backslash). -/
def isDoubleEscapeChar (c : Char) : Bool :=
  c = '$' || c = backquoteChar || c = '"' || c = '\n' || c = '\\'

/-- The `goto` states of go-shellquote's `splitWord`. -/
inductive SplitState
  | raw
  | escape
  | single
  | double
  deriving DecidableEq, Repr

/-- `splitWord` from go-shellquote's `unquote.go`: consumes one word from the
input, returning the unquoted word and the unconsumed remainder, or the error
for an unterminated quote/escape. The accumulator plays the buffer's role
(reversed); each equation mirrors one labelled block of the Go function. -/
def splitWordGo : SplitState → List Char → List Char → Except SQError (List Char × List Char)
  | .raw, acc, [] => .ok (acc.reverse, [])
  | .raw, acc, c :: cs =>
    if c = singleQuoteChar then splitWordGo .single acc cs
    else if c = '"' then splitWordGo .double acc cs
    else if c = '\\' then splitWordGo .escape acc cs
    else if isSplitChar c then .ok (acc.reverse, cs)
    else splitWordGo .raw (c :: acc) cs
  | .escape, _, [] => .error .unterminatedEscape
  | .escape, acc, c :: cs =>
    if c = '\n' then splitWordGo .raw acc cs else splitWordGo .raw (c :: acc) cs
  | .single, _, [] => .error .unterminatedSingle
  | .single, acc, c :: cs =>
    if c = singleQuoteChar then splitWordGo .raw acc cs else splitWordGo .single (c :: acc) cs
  | .double, _, [] => .error .unterminatedDouble
  | .double, acc, c :: cs =>
    if c = '"' then splitWordGo .raw acc cs
    else if c = '\\' then
      match cs with
      | [] => .error .unterminatedDouble
      | c2 :: cs2 =>
        if isDoubleEscapeChar c2 then
          if c2 = '\n' then splitWordGo .double acc cs2
          else splitWordGo .double (c2 :: acc) cs2
        else splitWordGo .double (c2 :: '\\' :: acc) cs2
    else splitWordGo .double (c :: acc) cs

/-- The loop body of go-shellquote's `Split`: skips separator characters and
backslash-newline pairs, then carves off one word at a time. The fuel argument
only bounds the recursion; `shellquoteSplit` supplies enough for any input. -/
def splitLoop : Nat → List Char → Except SQError (List String)
  | 0, _ => .ok []
  | _ + 1, [] => .ok []
  | fuel + 1, c :: cs =>
    if isSplitChar c then splitLoop fuel cs
    else if c = '\\' then
      match cs with
      | [] => .error .unterminatedEscape
      | c2 :: cs2 =>
        if c2 = '\n' then splitLoop fuel cs2
        else
          match splitWordGo .raw [] (c :: cs) with
          | .error e => .error e
          | .ok (w, rem) =>
            match splitLoop fuel rem with
            | .error e => .error e
            | .ok ws => .ok (String.mk w :: ws)
    else
      match splitWordGo .raw [] (c :: cs) with
      | .error e => .error e
      | .ok (w, rem) =>
        match splitLoop fuel rem with
        | .error e => .error e
        | .ok ws => .ok (String.mk w :: ws)

/-- `shellquote.Split` on a whole string. -/
def shellquoteSplit (s : String) : Except SQError (List String) :=
  splitLoop (s.data.length + 1) s.data

/-- `parseCarthageOptions` from `src/main.go`: an empty raw option string
yields no tokens; a non-empty one is split by `shellquote.Split`, and a split
error is fatal to the run (the Go code calls `fail`, modelled as `Except.error`). -/
def parseCarthageOptions (carthageOptions : String) : Except SQError (List String) :=
  if carthageOptions = "" then .ok []
  else shellquoteSplit carthageOptions

/-- C5: the raw option string containing a double-quoted, space-embedded
directory splits into four tokens, the quoted substring staying one token, and
`parseProjectDir` then picks out `"My Project"`. -/
theorem parseCarthageOptions_quoted_tokens :
    parseCarthageOptions "--platform iOS --project-directory \"My Project\"" =
        Except.ok ["--platform", "iOS", "--project-directory", "My Project"] ∧
      parseProjectDir "/src" ["--platform", "iOS", "--project-directory", "My Project"] =
        "My Project" := by
  constructor <;> rfl

/-- Modelled from the spec: "fails with `OptionSyntaxError` on unbalanced
quoting". Balancedness of a raw option string is judged by a plain
left-to-right scan over the same quoting states as the splitter but with no
buffering or word boundaries: the scan returns the state it ends in, and the
string is unbalanced when that state is not the plain (`raw`) one. -/
def quoteScan : SplitState → List Char → SplitState
  | m, [] => m
  | .raw, c :: cs =>
    if c = singleQuoteChar then quoteScan .single cs
    else if c = '"' then quoteScan .double cs
    else if c = '\\' then quoteScan .escape cs
    else quoteScan .raw cs
  | .escape, _ :: cs => quoteScan .raw cs
  | .single, c :: cs =>
    if c = singleQuoteChar then quoteScan .raw cs else quoteScan .single cs
  | .double, c :: cs =>
    if c = '"' then quoteScan .raw cs
    else if c = '\\' then
      match cs with
      | [] => .double
      | _ :: cs2 => quoteScan .double cs2
    else quoteScan .double cs

/-- Modelled from the spec: a raw option string has unbalanced shell quoting
when the quoting scan does not end in the plain state (an unclosed single or
double quote, or a trailing backslash). -/
def hasUnbalancedQuoting (s : String) : Bool :=
  decide (quoteScan SplitState.raw s.data ≠ SplitState.raw)

theorem splitWordGo_raw_cons (acc : List Char) (c : Char) (cs : List Char) :
    splitWordGo .raw acc (c :: cs) =
      if c = singleQuoteChar then splitWordGo .single acc cs
      else if c = '"' then splitWordGo .double acc cs
      else if c = '\\' then splitWordGo .escape acc cs
      else if isSplitChar c then .ok (acc.reverse, cs)
      else splitWordGo .raw (c :: acc) cs := rfl

theorem splitWordGo_escape_cons (acc : List Char) (c : Char) (cs : List Char) :
    splitWordGo .escape acc (c :: cs) =
      if c = '\n' then splitWordGo .raw acc cs else splitWordGo .raw (c :: acc) cs := rfl

theorem splitWordGo_single_cons (acc : List Char) (c : Char) (cs : List Char) :
    splitWordGo .single acc (c :: cs) =
      if c = singleQuoteChar then splitWordGo .raw acc cs
      else splitWordGo .single (c :: acc) cs := rfl

theorem splitWordGo_double_cons (acc : List Char) (c : Char) (cs : List Char)
    (h1 : ¬ c = '"') (h2 : ¬ c = '\\') :
    splitWordGo .double acc (c :: cs) = splitWordGo .double (c :: acc) cs := by
  conv_lhs => rw [splitWordGo.eq_def]
  simp [h1, h2]

theorem splitWordGo_double_quote_cons (acc : List Char) (cs : List Char) :
    splitWordGo .double acc ('"' :: cs) = splitWordGo .raw acc cs := by
  conv_lhs => rw [splitWordGo.eq_def]
  simp

theorem splitWordGo_double_backslash_nil (acc : List Char) :
    splitWordGo .double acc ['\\'] = .error .unterminatedDouble := by
  conv_lhs => rw [splitWordGo.eq_def]
  simp

theorem splitWordGo_double_backslash_cons (acc : List Char) (c2 : Char) (cs2 : List Char) :
    splitWordGo .double acc ('\\' :: c2 :: cs2) =
      if isDoubleEscapeChar c2 then
        if c2 = '\n' then splitWordGo .double acc cs2
        else splitWordGo .double (c2 :: acc) cs2
      else splitWordGo .double (c2 :: '\\' :: acc) cs2 := by
  conv_lhs => rw [splitWordGo.eq_def]
  simp

theorem quoteScan_raw_cons (c : Char) (cs : List Char) :
    quoteScan .raw (c :: cs) =
      if c = singleQuoteChar then quoteScan .single cs
      else if c = '"' then quoteScan .double cs
      else if c = '\\' then quoteScan .escape cs
      else quoteScan .raw cs := rfl

theorem quoteScan_escape_cons (c : Char) (cs : List Char) :
    quoteScan .escape (c :: cs) = quoteScan .raw cs := rfl

theorem quoteScan_single_cons (c : Char) (cs : List Char) :
    quoteScan .single (c :: cs) =
      if c = singleQuoteChar then quoteScan .raw cs else quoteScan .single cs := rfl

theorem quoteScan_double_cons (c : Char) (cs : List Char)
    (h1 : ¬ c = '"') (h2 : ¬ c = '\\') :
    quoteScan .double (c :: cs) = quoteScan .double cs := by
  conv_lhs => rw [quoteScan.eq_def]
  simp [h1, h2]

theorem quoteScan_double_quote_cons (cs : List Char) :
    quoteScan .double ('"' :: cs) = quoteScan .raw cs := by
  conv_lhs => rw [quoteScan.eq_def]
  simp

theorem quoteScan_double_backslash_cons (c2 : Char) (cs2 : List Char) :
    quoteScan .double ('\\' :: c2 :: cs2) = quoteScan .double cs2 := by
  conv_lhs => rw [quoteScan.eq_def]
  simp

theorem splitWordGo_ok_scan (n : Nat) :
    ∀ (cs : List Char), cs.length ≤ n →
      ∀ (m : SplitState) (acc w rem : List Char),
        splitWordGo m acc cs = .ok (w, rem) →
        quoteScan m cs = quoteScan .raw rem ∧ rem.length ≤ cs.length := by
  induction n with
  | zero =>
    intro cs hcs m acc w rem h
    have hnil : cs = [] := List.eq_nil_of_length_eq_zero (Nat.le_zero.mp hcs)
    subst hnil
    cases m <;> simp [splitWordGo] at h
    obtain ⟨-, h2⟩ := h
    subst h2
    exact ⟨rfl, le_rfl⟩
  | succ n ih =>
    intro cs hcs m acc w rem h
    match cs with
    | [] =>
      cases m <;> simp [splitWordGo] at h
      obtain ⟨-, h2⟩ := h
      subst h2
      exact ⟨rfl, le_rfl⟩
    | c :: cs' =>
      have hcs' : cs'.length ≤ n := Nat.le_of_succ_le_succ hcs
      cases m with
      | raw =>
        rw [splitWordGo_raw_cons] at h
        by_cases h1 : c = singleQuoteChar
        · rw [if_pos h1] at h
          obtain ⟨hs, hl⟩ := ih cs' hcs' .single acc w rem h
          exact ⟨by rw [quoteScan_raw_cons, if_pos h1, hs], Nat.le_succ_of_le hl⟩
        · rw [if_neg h1] at h
          by_cases h2 : c = '"'
          · rw [if_pos h2] at h
            obtain ⟨hs, hl⟩ := ih cs' hcs' .double acc w rem h
            exact ⟨by rw [quoteScan_raw_cons, if_neg h1, if_pos h2, hs], Nat.le_succ_of_le hl⟩
          · rw [if_neg h2] at h
            by_cases h3 : c = '\\'
            · rw [if_pos h3] at h
              obtain ⟨hs, hl⟩ := ih cs' hcs' .escape acc w rem h
              exact ⟨by rw [quoteScan_raw_cons, if_neg h1, if_neg h2, if_pos h3, hs],
                Nat.le_succ_of_le hl⟩
            · rw [if_neg h3] at h
              by_cases h4 : isSplitChar c = true
              · rw [if_pos h4] at h
                obtain ⟨-, h6⟩ := by simpa using h
                subst h6
                exact ⟨by rw [quoteScan_raw_cons, if_neg h1, if_neg h2, if_neg h3],
                  Nat.le_succ_of_le le_rfl⟩
              · rw [if_neg h4] at h
                obtain ⟨hs, hl⟩ := ih cs' hcs' .raw (c :: acc) w rem h
                exact ⟨by rw [quoteScan_raw_cons, if_neg h1, if_neg h2, if_neg h3, hs],
                  Nat.le_succ_of_le hl⟩
      | escape =>
        rw [splitWordGo_escape_cons] at h
        by_cases h1 : c = '\n'
        · rw [if_pos h1] at h
          obtain ⟨hs, hl⟩ := ih cs' hcs' .raw acc w rem h
          exact ⟨by rw [quoteScan_escape_cons, hs], Nat.le_succ_of_le hl⟩
        · rw [if_neg h1] at h
          obtain ⟨hs, hl⟩ := ih cs' hcs' .raw (c :: acc) w rem h
          exact ⟨by rw [quoteScan_escape_cons, hs], Nat.le_succ_of_le hl⟩
      | single =>
        rw [splitWordGo_single_cons] at h
        by_cases h1 : c = singleQuoteChar
        · rw [if_pos h1] at h
          obtain ⟨hs, hl⟩ := ih cs' hcs' .raw acc w rem h
          exact ⟨by rw [quoteScan_single_cons, if_pos h1, hs], Nat.le_succ_of_le hl⟩
        · rw [if_neg h1] at h
          obtain ⟨hs, hl⟩ := ih cs' hcs' .single (c :: acc) w rem h
          exact ⟨by rw [quoteScan_single_cons, if_neg h1, hs], Nat.le_succ_of_le hl⟩
      | double =>
        by_cases h1 : c = '"'
        · subst h1
          rw [splitWordGo_double_quote_cons] at h
          obtain ⟨hs, hl⟩ := ih cs' hcs' .raw acc w rem h
          exact ⟨by rw [quoteScan_double_quote_cons, hs], Nat.le_succ_of_le hl⟩
        · by_cases h2 : c = '\\'
          · subst h2
            match cs' with
            | [] => rw [splitWordGo_double_backslash_nil] at h; exact absurd h (by simp)
            | c2 :: cs2 =>
              have hcs2 : cs2.length ≤ n := by
                have := hcs'
                simp only [List.length_cons] at this
                omega
              rw [splitWordGo_double_backslash_cons] at h
              by_cases h3 : isDoubleEscapeChar c2 = true
              · rw [if_pos h3] at h
                by_cases h4 : c2 = '\n'
                · rw [if_pos h4] at h
                  obtain ⟨hs, hl⟩ := ih cs2 hcs2 .double acc w rem h
                  exact ⟨by rw [quoteScan_double_backslash_cons, hs],
                    Nat.le_succ_of_le (Nat.le_succ_of_le hl)⟩
                · rw [if_neg h4] at h
                  obtain ⟨hs, hl⟩ := ih cs2 hcs2 .double (c2 :: acc) w rem h
                  exact ⟨by rw [quoteScan_double_backslash_cons, hs],
                    Nat.le_succ_of_le (Nat.le_succ_of_le hl)⟩
              · rw [if_neg h3] at h
                obtain ⟨hs, hl⟩ := ih cs2 hcs2 .double (c2 :: '\\' :: acc) w rem h
                exact ⟨by rw [quoteScan_double_backslash_cons, hs],
                  Nat.le_succ_of_le (Nat.le_succ_of_le hl)⟩
          · rw [splitWordGo_double_cons acc c cs' h1 h2] at h
            obtain ⟨hs, hl⟩ := ih cs' hcs' .double (c :: acc) w rem h
            exact ⟨by rw [quoteScan_double_cons c cs' h1 h2, hs], Nat.le_succ_of_le hl⟩

theorem splitWordGo_raw_rem_le (c : Char) (cs acc w rem : List Char)
    (hns : ¬ isSplitChar c = true)
    (h : splitWordGo .raw acc (c :: cs) = .ok (w, rem)) : rem.length ≤ cs.length := by
  rw [splitWordGo_raw_cons] at h
  by_cases h1 : c = singleQuoteChar
  · rw [if_pos h1] at h
    exact (splitWordGo_ok_scan cs.length cs le_rfl _ _ _ _ h).2
  · rw [if_neg h1] at h
    by_cases h2 : c = '"'
    · rw [if_pos h2] at h
      exact (splitWordGo_ok_scan cs.length cs le_rfl _ _ _ _ h).2
    · rw [if_neg h2] at h
      by_cases h3 : c = '\\'
      · rw [if_pos h3] at h
        exact (splitWordGo_ok_scan cs.length cs le_rfl _ _ _ _ h).2
      · rw [if_neg h3, if_neg hns] at h
        exact (splitWordGo_ok_scan cs.length cs le_rfl _ _ _ _ h).2

theorem splitLoop_cons (fuel : Nat) (c : Char) (cs : List Char) :
    splitLoop (fuel + 1) (c :: cs) =
      if isSplitChar c then splitLoop fuel cs
      else if c = '\\' then
        match cs with
        | [] => .error .unterminatedEscape
        | c2 :: cs2 =>
          if c2 = '\n' then splitLoop fuel cs2
          else
            match splitWordGo .raw [] (c :: cs) with
            | .error e => .error e
            | .ok (w, rem) =>
              match splitLoop fuel rem with
              | .error e => .error e
              | .ok ws => .ok (String.mk w :: ws)
      else
        match splitWordGo .raw [] (c :: cs) with
        | .error e => .error e
        | .ok (w, rem) =>
          match splitLoop fuel rem with
          | .error e => .error e
          | .ok ws => .ok (String.mk w :: ws) := rfl

theorem splitLoop_ok_scan (fuel : Nat) :
    ∀ (cs : List Char), cs.length < fuel →
      ∀ ws, splitLoop fuel cs = .ok ws → quoteScan .raw cs = .raw := by
  induction fuel with
  | zero => intro cs h; omega
  | succ fuel ih =>
    intro cs hlen ws h
    match cs with
    | [] => rfl
    | c :: cs' =>
      have hlen' : cs'.length < fuel := Nat.lt_of_succ_lt_succ hlen
      rw [splitLoop_cons] at h
      by_cases h1 : isSplitChar c = true
      · rw [if_pos h1] at h
        have hscan := ih cs' hlen' ws h
        have hc : (c = ' ' ∨ c = '\n') ∨ c = '\t' := by
          simpa [isSplitChar] using h1
        rcases hc with (h2 | h2) | h2 <;> subst h2 <;>
          rw [quoteScan_raw_cons, if_neg (by decide), if_neg (by decide),
            if_neg (by decide)] <;> exact hscan
      · rw [if_neg h1] at h
        by_cases h2 : c = '\\'
        · subst h2
          rw [if_pos rfl] at h
          match cs' with
          | [] => exact absurd h (by simp)
          | c2 :: cs2 =>
            have hlen2 : cs2.length < fuel := by
              simp only [List.length_cons] at hlen'
              omega
            have hstep : (if c2 = '\n' then splitLoop fuel cs2
                else
                  match splitWordGo .raw [] ('\\' :: c2 :: cs2) with
                  | .error e => .error e
                  | .ok (w, rem) =>
                    match splitLoop fuel rem with
                    | .error e => .error e
                    | .ok ws => .ok (String.mk w :: ws)) = Except.ok ws := h
            by_cases h3 : c2 = '\n'
            · rw [if_pos h3] at hstep
              have hscan := ih cs2 hlen2 ws hstep
              subst h3
              rw [quoteScan_raw_cons, if_neg (by decide), if_neg (by decide), if_pos rfl,
                quoteScan_escape_cons]
              exact hscan
            · rw [if_neg h3] at hstep
              rcases hsw : splitWordGo .raw [] ('\\' :: c2 :: cs2) with e | ⟨w, rem⟩ <;>
                rw [hsw] at hstep
              · exact absurd hstep (by simp)
              · have hrem : rem.length ≤ (c2 :: cs2).length :=
                  splitWordGo_raw_rem_le '\\' (c2 :: cs2) [] w rem h1 hsw
                have hstep2 : (match splitLoop fuel rem with
                    | .error e => .error e
                    | .ok ws => .ok (String.mk w :: ws)) = Except.ok ws := hstep
                rcases hrec : splitLoop fuel rem with e2 | ws2 <;> rw [hrec] at hstep2
                · exact absurd hstep2 (by simp)
                · have hscanrem := ih rem (Nat.lt_of_le_of_lt hrem hlen') ws2 hrec
                  have hword :=
                    (splitWordGo_ok_scan ('\\' :: c2 :: cs2).length ('\\' :: c2 :: cs2)
                      le_rfl .raw [] w rem hsw).1
                  rw [hword, hscanrem]
        · rw [if_neg h2] at h
          rcases hsw : splitWordGo .raw [] (c :: cs') with e | ⟨w, rem⟩ <;> rw [hsw] at h
          · exact absurd h (by simp)
          · have hrem : rem.length ≤ cs'.length :=
              splitWordGo_raw_rem_le c cs' [] w rem h1 hsw
            have hstep2 : (match splitLoop fuel rem with
                | .error e => .error e
                | .ok ws => .ok (String.mk w :: ws)) = Except.ok ws := h
            rcases hrec : splitLoop fuel rem with e2 | ws2 <;> rw [hrec] at hstep2
            · exact absurd hstep2 (by simp)
            · have hscanrem := ih rem (Nat.lt_of_le_of_lt hrem hlen') ws2 hrec
              have hword :=
                (splitWordGo_ok_scan (c :: cs').length (c :: cs') le_rfl .raw [] w rem hsw).1
              rw [hword, hscanrem]

/-- C7: a raw option string with unbalanced shell quoting (an unclosed quote
or trailing escape) makes option parsing fail with an error instead of
producing a token list; in the step this error is fatal (`fail` exits the
run). -/
theorem parseCarthageOptions_unbalanced_fails (s : String)
    (h : hasUnbalancedQuoting s = true) :
    ∃ e, parseCarthageOptions s = Except.error e := by
  have hne : s ≠ "" := by
    rintro rfl
    simp [hasUnbalancedQuoting, quoteScan] at h
  rw [parseCarthageOptions, if_neg hne]
  rcases hr : shellquoteSplit s with e | ws
  · exact ⟨e, rfl⟩
  · exfalso
    have hscan : quoteScan .raw s.data = .raw :=
      splitLoop_ok_scan (s.data.length + 1) s.data (Nat.lt_succ_self _) ws hr
    rw [hasUnbalancedQuoting, decide_eq_true_iff] at h
    exact h hscan

/-- C7 (witness): the option string with an unclosed double quote fails. -/
theorem parseCarthageOptions_unbalanced_fails_witness :
    ∃ e, parseCarthageOptions "--project-directory \"My Project" = Except.error e :=
  parseCarthageOptions_unbalanced_fails "--project-directory \"My Project" (by decide)

/-! ## The version probe

`getCarthageVersion` (`src/main.go`) runs `carthage version`, trims the
combined output (`RunAndReturnTrimmedCombinedOutput`), splits it on newlines
and returns the first line `version.NewVersion` accepts. The acceptance test
below is embedded from `github.com/hashicorp/go-version` (`version.go`): a
line parses when it matches the anchored regular expression
`^v?([0-9]+(\.[0-9]+)*?)(-pre|pre)?(\+build)?$` (with the library's exact
character classes for the pre-release and build-metadata parts) and every
numeric segment fits in an `int64` (`strconv.ParseInt`). -/

/-- The character class `[0-9A-Za-z\-~]` of go-version. -/
def goClassChar (c : Char) : Bool := c.isDigit || c.isAlpha || c = '-' || c = '~'

/-- The character class `[A-Za-z\-~]` of go-version. -/
def goLetterChar (c : Char) : Bool := c.isAlpha || c = '-' || c = '~'

/-- Go's `strings.Split` for a one-character separator (used with `"\\n"`,
`"."` and `"+"` below): splits at every occurrence, keeping empty pieces, and
maps the empty input to one empty piece. -/
def splitOnChar (sep : Char) : List Char → List (List Char)
  | [] => [[]]
  | c :: cs =>
    if c = sep then [] :: splitOnChar sep cs
    else
      match splitOnChar sep cs with
      | [] => [[c]]
      | w :: ws => (c :: w) :: ws

/-- One dot-free identifier: nonempty, first character in `first`, remaining
characters in `[0-9A-Za-z\-~]`. -/
def segOK (cs : List Char) (first : Char → Bool) : Bool :=
  match cs with
  | [] => false
  | c :: rest => first c && rest.all goClassChar

/-- A dot-separated identifier sequence `seg(\.seg)*` whose first segment's
first character satisfies `first`. -/
def dottedSegs (cs : List Char) (first : Char → Bool) : Bool :=
  match splitOnChar '.' cs with
  | [] => false
  | s :: rest => segOK s first && rest.all (fun t => segOK t goClassChar)

/-- The numeric pre-release alternative
`-([0-9]+[0-9A-Za-z\-~]*(\.[0-9A-Za-z\-~]+)*)`. -/
def preAltA (cs : List Char) : Bool :=
  match cs with
  | '-' :: t => dottedSegs t Char.isDigit
  | _ => false

/-- The alphabetic pre-release alternative
`-?([A-Za-z\-~]+[0-9A-Za-z\-~]*(\.[0-9A-Za-z\-~]+)*)` (the dash optional). -/
def preAltB (cs : List Char) : Bool :=
  dottedSegs cs goLetterChar ||
    (match cs with
      | '-' :: t => dottedSegs t goLetterChar
      | _ => false)

/-- The optional pre-release part of the go-version regular expression. -/
def matchPreOpt (cs : List Char) : Bool :=
  cs.isEmpty || preAltA cs || preAltB cs

/-- The text after the numeric core: an optional pre-release part, then an
optional `+`-introduced build-metadata part `\+([0-9A-Za-z\-~]+(\.[0-9A-Za-z\-~]+)*)`.
None of the character classes contain `+`, so the split at `+` is exact. -/
def matchVersionTail (cs : List Char) : Bool :=
  match splitOnChar '+' cs with
  | [p] => matchPreOpt p
  | [p, build] => matchPreOpt p && dottedSegs build goClassChar
  | _ => false

/-- The numeric value of a digit string (`strconv.ParseInt` semantics for a
nonempty all-digit string, ignoring the int64 bound which is checked
separately). -/
def digitsToNat (ds : List Char) : Nat :=
  ds.foldl (fun n c => n * 10 + (c.toNat - 48)) 0

/-- The numeric core `[0-9]+(\.[0-9]+)*?` of the go-version regular
expression: one or more digit runs separated by dots, consuming a dot only
when a digit follows (nothing after the core can consume a dot or a digit, so
this greedy reading coincides with the regular expression's match). Returns
the digit runs and the unconsumed remainder. The fuel only bounds recursion;
callers supply the input length. -/
def coreSegs : Nat → List Char → Option (List (List Char) × List Char)
  | 0, _ => none
  | fuel + 1, cs =>
    let p := cs.span Char.isDigit
    if p.1.isEmpty then none
    else
      match p.2 with
      | '.' :: c :: rest =>
        if c.isDigit then
          match coreSegs fuel (c :: rest) with
          | some (segs, r) => some (p.1 :: segs, r)
          | none => none
        else some ([p.1], p.2)
      | _ => some ([p.1], p.2)

/-- A parsed go-version value: the numeric segments and the raw pre-release /
build-metadata suffix of the matched line. -/
structure GoVersion where
  segments : List Nat
  suffix : String
  deriving DecidableEq, Repr

/-- `version.NewVersion` from hashicorp/go-version: strips an optional
leading `v`, matches the anchored version regular expression, and requires
every numeric segment to fit in an `int64`. -/
def goVersionParse (s : String) : Option GoVersion :=
  let cs0 := s.data
  let cs := match cs0 with
    | c :: rest => if c = 'v' then rest else cs0
    | [] => cs0
  match coreSegs (cs.length + 1) cs with
  | none => none
  | some (segs, rest) =>
    if segs.all (fun ds => digitsToNat ds < 2 ^ 63) && matchVersionTail rest then
      some { segments := segs.map digitsToNat, suffix := String.mk rest }
    else none

/-- The scanning loop of `getCarthageVersion` (`src/main.go`): the first line
that parses as a version wins. -/
def carthageVersionScan : List String → Option GoVersion
  | [] => none
  | line :: rest =>
    match goVersionParse line with
    | some v => some v
    | none => carthageVersionScan rest

/-- The error message `getCarthageVersion` builds when no line parses,
carrying the raw (trimmed) output. -/
def carthageVersionErrorMsg (out : String) : String :=
  "failed to parse `$ carthage version` output: " ++ out

/-- `strings.Split(out, "\\n")` as the step applies it. -/
def goSplitLines (out : String) : List String :=
  (splitOnChar '\n' out.data).map String.mk

/-- The parsing stage of `getCarthageVersion` (`src/main.go`), a function of
the trimmed combined output of `carthage version`. -/
def getCarthageVersionFromOutput (out : String) : Except String GoVersion :=
  match carthageVersionScan (goSplitLines out) with
  | some v => Except.ok v
  | none => Except.error (carthageVersionErrorMsg out)

/-- Go's `unicode.IsSpace` restricted to the ASCII range (space, tab,
newline, vertical tab, form feed, carriage return), which covers every
output this step trims. -/
def isGoSpace (c : Char) : Bool :=
  c = ' ' || c = '\t' || c = '\n' || c = '\x0b' || c = '\x0c' || c = '\r'

/-- `strings.TrimSpace` (as applied by `RunAndReturnTrimmedCombinedOutput`):
drops leading and trailing whitespace. -/
def goTrimSpace (s : String) : String :=
  String.mk ((s.data.dropWhile isGoSpace).reverse.dropWhile isGoSpace).reverse

/-- `getCarthageVersion` from `src/main.go` as a function of the raw combined
output of `carthage version`: the output is trimmed, then scanned line by
line. -/
def getCarthageVersion (combinedOut : String) : Except String GoVersion :=
  getCarthageVersionFromOutput (goTrimSpace combinedOut)

theorem carthageVersionScan_eq_some_iff (ls : List String) (v : GoVersion) :
    carthageVersionScan ls = some v ↔
      ∃ pre line post, ls = pre ++ line :: post ∧ goVersionParse line = some v ∧
        ∀ l ∈ pre, goVersionParse l = none := by
  induction ls with
  | nil =>
    constructor
    · intro h; exact absurd h (by simp [carthageVersionScan])
    · rintro ⟨pre, line, post, h1, -, -⟩
      exact absurd h1 (by simp)
  | cons a rest ih =>
    rcases ha : goVersionParse a with _ | w
    · simp only [carthageVersionScan, ha]
      rw [ih]
      constructor
      · rintro ⟨pre, line, post, h1, h2, h3⟩
        refine ⟨a :: pre, line, post, by rw [h1]; rfl, h2, ?_⟩
        intro l hl
        rcases List.mem_cons.mp hl with rfl | hl
        · exact ha
        · exact h3 l hl
      · rintro ⟨pre, line, post, h1, h2, h3⟩
        cases pre with
        | nil =>
          simp only [List.nil_append] at h1
          rw [← (List.cons.inj h1).1, ha] at h2
          exact absurd h2 (by simp)
        | cons p pre2 =>
          exact ⟨pre2, line, post, (List.cons.inj h1).2, h2,
            fun l hl => h3 l (List.mem_cons_of_mem p hl)⟩
    · simp only [carthageVersionScan, ha]
      constructor
      · intro h
        obtain rfl : w = v := Option.some.inj h
        exact ⟨[], a, rest, rfl, ha, by simp⟩
      · rintro ⟨pre, line, post, h1, h2, h3⟩
        cases pre with
        | nil =>
          simp only [List.nil_append] at h1
          rw [← (List.cons.inj h1).1, ha] at h2
          exact h2
        | cons p pre2 =>
          have hp := h3 p (List.mem_cons_self p pre2)
          rw [← (List.cons.inj h1).1, ha] at hp
          exact absurd hp (by simp)

theorem carthageVersionScan_eq_none_iff (ls : List String) :
    carthageVersionScan ls = none ↔ ∀ l ∈ ls, goVersionParse l = none := by
  induction ls with
  | nil => simp [carthageVersionScan]
  | cons a rest ih =>
    rcases ha : goVersionParse a with _ | w
    · simp only [carthageVersionScan, ha]
      rw [ih]
      constructor
      · intro h l hl
        rcases List.mem_cons.mp hl with rfl | hl
        · exact ha
        · exact h l hl
      · intro h l hl
        exact h l (List.mem_cons_of_mem a hl)
    · simp only [carthageVersionScan, ha]
      constructor
      · intro h; exact absurd h (by simp)
      · intro h
        have := h a (List.mem_cons_self a rest)
        rw [ha] at this
        exact absurd this (by simp)

/-- C2: `getCarthageVersion` splits the (trimmed) probe output into lines,
scans them in order and returns the first line that parses as a valid
semantic version; when no line parses it returns an error carrying the raw
output; and the probe output `"carthage version\n0.38.0\n"` yields version
`0.38.0`. -/
theorem getCarthageVersion_first_line (out : String) :
    (∀ v : GoVersion, getCarthageVersionFromOutput out = Except.ok v ↔
        ∃ pre line post, goSplitLines out = pre ++ line :: post ∧
          goVersionParse line = some v ∧ ∀ l ∈ pre, goVersionParse l = none) ∧
      (getCarthageVersionFromOutput out = Except.error (carthageVersionErrorMsg out) ↔
        ∀ l ∈ goSplitLines out, goVersionParse l = none) ∧
      getCarthageVersion "carthage version\n0.38.0\n" =
        Except.ok { segments := [0, 38, 0], suffix := "" } := by
  refine ⟨fun v => ?_, ?_, by rfl⟩
  · rw [getCarthageVersionFromOutput, ← carthageVersionScan_eq_some_iff]
    rcases h : carthageVersionScan (goSplitLines out) with _ | w <;> simp
  · rw [getCarthageVersionFromOutput, ← carthageVersionScan_eq_none_iff]
    rcases h : carthageVersionScan (goSplitLines out) with _ | w <;> simp

/-- C2 (witness): the scenario conjunct extracted at a concrete output. -/
theorem getCarthageVersion_first_line_witness :
    getCarthageVersion "carthage version\n0.38.0\n" =
      Except.ok { segments := [0, 38, 0], suffix := "" } :=
  (getCarthageVersion_first_line "").2.2

/-! ## The xcconfig override -/

/-- The warning `parseXCConfigPath` logs when both sources are set. -/
def xcconfigBothWarning : String :=
  "Both `xcconfig` input and `XCODE_XCCONFIG_FILE` are set. Using `xcconfig` input."

/-- `parseXCConfigPath` from `src/main.go`. The `FileProvider` collaborator is
a function from a path to its resolved local path or an error; logged warnings
are returned alongside the result (`log.Warnf` calls, in order). -/
def parseXCConfigPath (pathFromStepInput pathFromEnv : String)
    (fileProvider : String → Except String String) : Except String (String × List String) :=
  let fromInput : Except String String :=
    if pathFromStepInput ≠ "" then fileProvider pathFromStepInput else .ok ""
  match fromInput with
  | .error e => .error e
  | .ok pathToUse =>
    if pathFromEnv ≠ "" then
      if pathToUse ≠ "" then .ok (pathToUse, [xcconfigBothWarning])
      else .ok (pathFromEnv, [])
    else .ok (pathToUse, [])

/-- C4: when both the explicit `xcconfig` input and `XCODE_XCCONFIG_FILE` are
non-empty, the resolved explicit path wins and exactly one warning is logged;
when only the environment path is set, it is returned with no warning. -/
theorem parseXCConfigPath_explicit_wins (stepInput fromEnv resolved : String)
    (fileProvider : String → Except String String) :
    (stepInput ≠ "" → fromEnv ≠ "" → fileProvider stepInput = .ok resolved → resolved ≠ "" →
        parseXCConfigPath stepInput fromEnv fileProvider =
          .ok (resolved, [xcconfigBothWarning])) ∧
      (stepInput = "" → fromEnv ≠ "" →
        parseXCConfigPath stepInput fromEnv fileProvider = .ok (fromEnv, [])) := by
  constructor
  · intro h1 h2 h3 h4
    rw [parseXCConfigPath]
    simp only [if_pos h1, h3, if_pos h2, if_pos h4]
  · intro h1 h2
    rw [parseXCConfigPath]
    simp only [h1]
    simp [h2]

/-- C4 (witness): with `xcconfig = "./o.xcconfig"` resolving to
`/tmp/o.xcconfig` and `XCODE_XCCONFIG_FILE = "/env.xcconfig"`, the explicit
path wins with one warning. -/
theorem parseXCConfigPath_explicit_wins_witness :
    parseXCConfigPath "./o.xcconfig" "/env.xcconfig"
        (fun _ => Except.ok "/tmp/o.xcconfig") =
      Except.ok ("/tmp/o.xcconfig", [xcconfigBothWarning]) :=
  (parseXCConfigPath_explicit_wins "./o.xcconfig" "/env.xcconfig" "/tmp/o.xcconfig"
      (fun _ => Except.ok "/tmp/o.xcconfig")).1
    (by decide) (by decide) rfl (by decide)

/-- C9: with an empty explicit input the provider is never consulted (the
result does not depend on it), the environment path is returned verbatim when
non-empty, and no error can be produced. -/
theorem parseXCConfigPath_empty_input (fromEnv : String)
    (fileProvider : String → Except String String) :
    parseXCConfigPath "" fromEnv fileProvider =
      .ok ((if fromEnv ≠ "" then fromEnv else ""), []) := by
  rw [parseXCConfigPath]
  by_cases h : fromEnv ≠ "" <;> simp [h]

/-- C9 (witness): the empty-input equation at a provider that always errors:
no error surfaces and the environment path is returned. -/
theorem parseXCConfigPath_empty_input_witness :
    parseXCConfigPath "" "/env.xcconfig" (fun _ => Except.error "boom") =
      Except.ok ((if ("/env.xcconfig" : String) ≠ "" then "/env.xcconfig" else ""), []) :=
  parseXCConfigPath_empty_input "/env.xcconfig" (fun _ => Except.error "boom")

/-! ## The cache subsystem (spec-modelled)

The `cachedcarthage` package (`NewCache`, the runner's cache decision, and
the fingerprint builder) is part of this repository but not among the sources
at hand; the definitions below are modelled from the specification (§4.3,
§4.4) and are marked so. -/

/-- Modelled from the spec (§4.3, Project Fingerprint Builder, not under
`src/`): a byte stream is a list of byte values; a possibly-absent input
(missing manifest or lock file, or no override) is framed with a sentinel for
absence and a length-prefixed payload otherwise, and `buildFingerprint`
concatenates the frames in the fixed order manifest, lock, override, then the
toolchain version string's bytes. -/
def frameOpt : Option (List Nat) → List Nat
  | none => [0]
  | some bs => 1 :: bs.length :: bs

/-- Modelled from the spec (§4.3): the deterministic digest over the ordered
inputs (manifest, lock, override, toolchain string). -/
def buildFingerprint (manifest lockFile override : Option (List Nat))
    (toolchain : List Nat) : List Nat :=
  frameOpt manifest ++ frameOpt lockFile ++ frameOpt override ++ toolchain

theorem frameOpt_append_inj (a b : Option (List Nat)) (r r2 : List Nat)
    (h : frameOpt a ++ r = frameOpt b ++ r2) : a = b ∧ r = r2 := by
  match a, b with
  | none, none => simpa [frameOpt] using h
  | none, some bs => simp [frameOpt] at h
  | some as, none => simp [frameOpt] at h
  | some as, some bs =>
    simp only [frameOpt, List.cons_append, List.cons.injEq, true_and] at h
    obtain ⟨hlen, happ⟩ := h
    obtain ⟨h1, h2⟩ := List.append_inj happ hlen
    exact ⟨by rw [h1], h2⟩

/-- C8: `buildFingerprint` is deterministic and collision-free over its
inputs: two fingerprints are equal exactly when the manifest bytes, lock-file
bytes, override bytes (including absence) and toolchain string bytes are all
identical; the inputs enter the digest in the fixed order manifest, lock,
override, toolchain. -/
theorem buildFingerprint_eq_iff (m l o : Option (List Nat)) (t : List Nat)
    (m2 l2 o2 : Option (List Nat)) (t2 : List Nat) :
    buildFingerprint m l o t = buildFingerprint m2 l2 o2 t2 ↔
      m = m2 ∧ l = l2 ∧ o = o2 ∧ t = t2 := by
  constructor
  · intro h
    rw [buildFingerprint, buildFingerprint, List.append_assoc, List.append_assoc,
      List.append_assoc, List.append_assoc] at h
    obtain ⟨hm, h⟩ := frameOpt_append_inj m m2 _ _ h
    obtain ⟨hl, h⟩ := frameOpt_append_inj l l2 _ _ h
    obtain ⟨ho, h⟩ := frameOpt_append_inj o o2 _ _ h
    exact ⟨hm, hl, ho, h⟩
  · rintro ⟨rfl, rfl, rfl, rfl⟩
    rfl

/-- C8 (witness): determinism applied at concrete byte streams. -/
theorem buildFingerprint_eq_iff_witness :
    buildFingerprint (some [1, 2]) none (some []) [48, 46, 51] =
      buildFingerprint (some [1, 2]) none (some []) [48, 46, 51] :=
  (buildFingerprint_eq_iff (some [1, 2]) none (some []) [48, 46, 51]
      (some [1, 2]) none (some []) [48, 46, 51]).mpr ⟨rfl, rfl, rfl, rfl⟩

/-- Modelled from the spec (§4.4, Cache Decision Engine, not under `src/`):
the decision outcomes. -/
inductive CacheDecision
  | hit
  | miss
  deriving DecidableEq, Repr

/-- Modelled from the spec (§3, §4.4): the externally persisted cache state —
the last-seen fingerprint (absent on a first run) and the registered artifact
payload. -/
structure CacheState where
  persisted : Option (List Nat)
  artifacts : Option (List Nat)
  deriving DecidableEq, Repr

/-- Modelled from the spec (§4.4, step 3): `Hit` exactly when a prior
fingerprint exists, equals the current one, and the collaborator confirms the
artifact payload is restorable; otherwise `Miss`. -/
def cacheDecide (prior : Option (List Nat)) (current : List Nat)
    (restorable : Bool) : CacheDecision :=
  if prior = some current ∧ restorable then .hit else .miss

/-- Modelled from the spec (§4.4, step 4): one engine run. On `Hit` nothing is
written. On `Miss` the build runs: on success the new fingerprint is persisted
and the built artifacts registered; on failure the state is returned
untouched together with the surfaced error. The result is the state after the
run, the decision taken, and whether the run succeeded. -/
def engineRun (st : CacheState) (current : List Nat) (restorable : Bool)
    (buildSucceeds : Bool) (builtArtifacts : List Nat) :
    CacheState × CacheDecision × Bool :=
  match cacheDecide st.persisted current restorable with
  | .hit => (st, .hit, true)
  | .miss =>
    if buildSucceeds then
      ({ persisted := some current, artifacts := some builtArtifacts }, .miss, true)
    else (st, .miss, false)

/-- C3: on the `Miss` path, when the external build command fails, the
persisted state and the artifact cache after the run equal those before the
run — a failed build mutates no cache state. -/
theorem engineRun_failed_build_preserves_state (st : CacheState) (current : List Nat)
    (restorable : Bool) (builtArtifacts : List Nat)
    (hmiss : cacheDecide st.persisted current restorable = .miss) :
    (engineRun st current restorable false builtArtifacts).1 = st := by
  rw [engineRun, hmiss]
  simp

/-- C3 (witness): a first run (no prior state) is a `Miss`; with a failing
build, the state is unchanged. -/
theorem engineRun_failed_build_preserves_state_witness :
    (engineRun { persisted := none, artifacts := none } [7] true false [9]).1 =
      { persisted := none, artifacts := none } :=
  engineRun_failed_build_preserves_state { persisted := none, artifacts := none } [7] true [9]
    (by decide)

end StepsCarthage
